import Mathlib

/-!
# Verification of the PixLab color-quantization and grid-state engine

A shallow embedding of the color utilities, palette extraction, color
reduction and grid history machinery of the PixLab sources
(`src/js/colorUtils2.js`, `src/js/colorPalette.js`, `src/js/gemGrid.js`,
`src/js/hexGrid.js`, `src/unnamed/part_001`, `src/unnamed/part_002`),
together with theorems settling the specification claims about them.

Modelling conventions:
* JavaScript strings are `String`, numbers are `Nat`/`Int` (all quantities
  handled by the engine are small integers, exactly representable as IEEE
  doubles, so integer arithmetic is exact).
* JavaScript objects used as string-keyed dictionaries are association
  lists `List (String × β)` in insertion order; `Set` objects are `List`s
  in insertion order without duplicates.
* `JSON.parse(JSON.stringify(x))` on these dictionary values is a deep
  copy, which in Lean's value semantics is the identity.
* Color distances: the source computes `Math.sqrt` of an integer sum of
  three squares bounded by `3*255^2 = 195075` and only ever compares two
  such square roots with strict `<`.  On that range IEEE-double `sqrt` is
  strictly monotone and collision-free (adjacent radicands differ in
  `sqrt` by at least `~1.1e-3`, far above double rounding error), so
  `sqrt a < sqrt b ↔ a < b`; we therefore compare the integer radicands.
-/

/-- RGB triple as returned by `ColorUtils.hexToRgb`. -/
structure Rgb where
  r : Nat
  g : Nat
  b : Nat
deriving Repr, DecidableEq

/-- Value of a hexadecimal digit character (`0-9`, `a-f`, `A-F`),
`none` for any other character. -/
def hexDigitVal (c : Char) : Option Nat :=
  if '0' ≤ c ∧ c ≤ '9' then some (c.toNat - '0'.toNat)
  else if 'a' ≤ c ∧ c ≤ 'f' then some (c.toNat - 'a'.toNat + 10)
  else if 'A' ≤ c ∧ c ≤ 'F' then some (c.toNat - 'A'.toNat + 10)
  else none

/-- Accumulating parse of a list of hex digit characters, stopping at the
first non-digit (the longest-prefix behaviour of `parseInt(s, 16)`). -/
def hexPrefixAux (acc : Nat) : List Char → Nat
  | [] => acc
  | c :: cs =>
    match hexDigitVal c with
    | some d => hexPrefixAux (16 * acc + d) cs
    | none => acc

/-- `parseInt(s, 16)`: parses the longest hexadecimal prefix of `s`;
`none` models the `NaN` result when no leading character is a hex digit.
(The whitespace/sign/`0x` handling of `parseInt` never fires on the
strings the engine passes: they are `replace(/^#/,'')` results of color
text.) -/
def jsParseInt16 (s : String) : Option Nat :=
  match s.data with
  | [] => none
  | c :: cs =>
    match hexDigitVal c with
    | some d => some (hexPrefixAux d cs)
    | none => none

/-- `hex.replace(/^#/, '')`: drop a single leading `#`. -/
def stripHash (s : String) : String :=
  match s.data with
  | '#' :: rest => String.mk rest
  | _ => s

/-- `ColorUtils.hexToRgb` (`src/js/colorUtils2.js` lines 23-34): strips a
leading `#`, parses with `parseInt(hex, 16)` and extracts the three bytes
with `>> 16 & 255`, `>> 8 & 255`, `& 255`.  JavaScript bitwise operators
work on the number converted to 32 bits (`ToInt32`), hence the
`% 2^32`; when `parseInt` yields `NaN` (no hex prefix) the bit
operations all produce `0`. -/
def hexToRgb (hex : String) : Rgb :=
  match jsParseInt16 (stripHash hex) with
  | none => ⟨0, 0, 0⟩
  | some n =>
    let m := n % 4294967296
    ⟨m / 65536 % 256, m / 256 % 256, m % 256⟩

/-- Big-endian list of the `k` low base-16 digits of `n` (value of each
digit, most significant first). -/
def hexDigitsFixed : Nat → Nat → List Nat
  | 0, _ => []
  | k + 1, n => hexDigitsFixed k (n / 16) ++ [n % 16]

/-- Hex digit value to its uppercase character: the composition of
`toString(16)` (lowercase digits) with `.toUpperCase()`. -/
def hexDigitCharUpper (d : Nat) : Char :=
  if d < 10 then Char.ofNat ('0'.toNat + d)
  else Char.ofNat ('A'.toNat + (d - 10))

/-- `ColorUtils.rgbToHex` (`src/js/colorUtils2.js` lines 14-16):
`"#" + ((1<<24) + (r<<16) + (g<<8) + b).toString(16).slice(1).toUpperCase()`.
For channel inputs `0-255` (the source's documented domain) the number
`2^24 + r*2^16 + g*2^8 + b` lies in `[16^6, 16^7)`, so `toString(16)`
yields exactly its 7 base-16 digits and `slice(1)` drops the leading 1. -/
def rgbToHex (r g b : Nat) : String :=
  String.mk ('#' :: ((hexDigitsFixed 7 (16777216 + (r * 65536 + g * 256 + b))).drop 1
    |>.map hexDigitCharUpper))

/-- `ColorUtils.isValidHex` (`src/js/colorUtils2.js` lines 153-155): the
regex `^#?([0-9A-F]{3}|[0-9A-F]{6})$/i`. -/
def isValidHex (hex : String) : Bool :=
  let cs := match hex.data with
    | '#' :: rest => rest
    | l => l
  (decide (cs.length = 3) || decide (cs.length = 6)) &&
    cs.all fun c => (hexDigitVal c).isSome

/-- `ColorUtils.colorDistance` squared: the radicand of the Euclidean RGB
distance computed by the source, with `Int` squares mirroring
`Math.pow(color1.r - color2.r, 2)` on possibly negative differences (see
the header note on why comparisons of the source's `Math.sqrt` values
coincide with comparisons of these integers). -/
def colorDistSq (c1 c2 : Rgb) : Int :=
  ((c1.r : Int) - c2.r) ^ 2 + ((c1.g : Int) - c2.g) ^ 2 + ((c1.b : Int) - c2.b) ^ 2

/-- `ColorUtils.findClosestColor` (`src/js/colorUtils2.js` lines 57-81):
starts from `closestColor = palette[0]` (`none` models the JavaScript
`undefined` when the palette is empty) and `minDistance = Infinity`
(`none`), then updates on strictly smaller distance. -/
def findClosestLoop (target : Rgb) :
    List String → Option String → Option Int → Option String
  | [], best, _ => best
  | p :: rest, best, bestD =>
    let d := colorDistSq target (hexToRgb p)
    match bestD with
    | none => findClosestLoop target rest (some p) (some d)
    | some bd =>
      if d < bd then findClosestLoop target rest (some p) (some d)
      else findClosestLoop target rest best (some bd)

/-- `ColorUtils.findClosestColor color palette`. -/
def findClosestColor (color : String) (palette : List String) : Option String :=
  findClosestLoop (hexToRgb color) palette palette.head? none

/-! ## Stable sorting

JavaScript's `Array.prototype.sort` is a stable sort (ES2019); any stable
sorting algorithm computes the same list, so we model each `sort(cmp)`
call by a stable insertion sort whose `le a b` relation is
`cmp(a, b) <= 0` ("`a` may stay before `b`"). -/

/-- Stable insertion of `x` in front of the first element `y` with
`le x y`. -/
def oins (le : α → α → Bool) (x : α) : List α → List α
  | [] => [x]
  | y :: t => if le x y then x :: y :: t else y :: oins le x t

/-- Stable insertion sort with respect to `le`. -/
def isort (le : α → α → Bool) : List α → List α
  | [] => []
  | x :: t => oins le x (isort le t)

/-! ## GemGrid (`src/js/gemGrid.js`)

State of a `GemGrid` restricted to the fields the specified engine reads:
cell colors, selection, history and cursor.  Canvas/rendering fields are
pure projections and are omitted.  History snapshots store the deep copy
of `gemColors` made in `saveState`; the accompanying `timestamp` field is
never read back by any `GemGrid` method, so it is dropped here (the
`HexGrid` variant, whose `undo` *does* restore the whole snapshot object,
is modelled separately with untyped JavaScript values below). -/

/-- Association-list lookup for a JavaScript object used as a
string-keyed dictionary (own properties only; the color strings stored
in these objects never collide with `Object.prototype` names). -/
def alookup (l : List (String × β)) (k : String) : Option β :=
  match l.find? (fun kv => kv.1 = k) with
  | some kv => some kv.2
  | none => none

/-- `obj[k] = v` on a dictionary object: overwrite an existing key in
place, else append a new key in insertion order. -/
def aset (l : List (String × β)) (k : String) (v : β) : List (String × β) :=
  match l with
  | [] => [(k, v)]
  | kv :: t => if kv.1 = k then (k, v) :: t else kv :: aset t k v

/-- The cell key `` `${col},${row}` ``. -/
def cellKey (col row : Nat) : String :=
  toString col ++ "," ++ toString row

/-- `GemGrid` state (logic-relevant fields). -/
structure GemGrid where
  cols : Nat
  rows : Nat
  gemColors : List (String × String)
  selectedCells : List String
  history : List (List (String × String))
  historyIndex : Int
deriving Repr, DecidableEq

/-- `this.defaultColor`. -/
def defaultColor : String := "#FFFFFF"

/-- `initializeGrid`: every cell of the `cols × rows` extent gets the
default color, rows outer and columns inner. -/
def initializeGrid (cols rows : Nat) : List (String × String) :=
  (List.range rows).flatMap fun row =>
    (List.range cols).map fun col => (cellKey col row, defaultColor)

/-- The `GemGrid` constructor's state: freshly initialized grid, empty
selection, empty history with `historyIndex = -1`. -/
def mkGemGrid (cols rows : Nat) : GemGrid :=
  { cols := cols
    rows := rows
    gemColors := initializeGrid cols rows
    selectedCells := []
    history := []
    historyIndex := -1 }

/-- `GemGrid.saveState` (`src/js/gemGrid.js` lines 354-375): truncate any
redo tail, push a deep copy of the current colors, point the cursor at
it, and evict the oldest entry past 50 snapshots. -/
def gemSaveState (st : GemGrid) : GemGrid :=
  let hist :=
    if st.historyIndex < (st.history.length : Int) - 1 then
      st.history.take (st.historyIndex + 1).toNat
    else st.history
  let hist := hist ++ [st.gemColors]
  let idx : Int := (hist.length : Int) - 1
  if hist.length > 50 then
    { st with history := hist.tail, historyIndex := idx - 1 }
  else
    { st with history := hist, historyIndex := idx }

/-- `GemGrid.applyColorToSelection` (`src/js/gemGrid.js` lines 337-349). -/
def applyColorToSelection (st : GemGrid) (color : String) : GemGrid :=
  if st.selectedCells.length = 0 then st
  else
    let st := gemSaveState st
    { st with gemColors :=
        st.selectedCells.foldl (fun m key => aset m key color) st.gemColors }

/-- `GemGrid.undo` (`src/js/gemGrid.js` lines 380-386): no-op unless
`historyIndex > 0`; else decrement and restore the `gemColors` field of
the snapshot (in-bounds under the history invariant, see `histInv`). -/
def gemUndo (st : GemGrid) : GemGrid :=
  if st.historyIndex > 0 then
    { st with historyIndex := st.historyIndex - 1
              gemColors := st.history.getD (st.historyIndex - 1).toNat [] }
  else st

/-- `GemGrid.redo` (`src/js/gemGrid.js` lines 391-397). -/
def gemRedo (st : GemGrid) : GemGrid :=
  if st.historyIndex < (st.history.length : Int) - 1 then
    { st with historyIndex := st.historyIndex + 1
              gemColors := st.history.getD (st.historyIndex + 1).toNat [] }
  else st

/-- `GemGrid.getColorCounts` as a histogram function: the count stored
for color `c` in the returned object. -/
def getColorCounts (st : GemGrid) (c : String) : Nat :=
  (st.gemColors.filter fun kv => kv.2 = c).length

/-- First-occurrence deduplication: the `Array.from(new Set(values))`
idiom (`Set` iterates in insertion order). -/
def firstDedupAux [DecidableEq α] (seen : List α) : List α → List α
  | [] => []
  | x :: t => if x ∈ seen then firstDedupAux seen t else x :: firstDedupAux (x :: seen) t

/-- `GemGrid.getAllColors`: distinct cell colors in first-occurrence
order. -/
def getAllColors (st : GemGrid) : List String :=
  firstDedupAux [] (st.gemColors.map fun kv => kv.2)

/-- `GemGrid.applyColorMapping` (`src/js/gemGrid.js` lines 580-591):
snapshot, then for every cell whose color has a truthy entry in
`colorMap` replace it (`if (colorMap[oldColor])` — in JavaScript a
looked-up string is truthy iff it is non-empty). -/
def applyColorMapping (st : GemGrid) (colorMap : List (String × String)) : GemGrid :=
  let st := gemSaveState st
  { st with gemColors :=
      st.gemColors.map fun kv =>
        match alookup colorMap kv.2 with
        | some nv => if nv ≠ "" then (kv.1, nv) else kv
        | none => kv }

/-- Data read by `GemGrid.loadFromJSON`: the fields of the parsed grid
file the method inspects.  `Option` is property presence; JavaScript
truthiness of a present number is `≠ 0`, a present cell-map object is
always truthy. -/
structure GridData where
  dcols : Option Nat
  drows : Option Nat
  dgemColors : Option (List (String × String))
deriving Repr, DecidableEq

/-- Truthiness of an optional numeric property. -/
def truthyNum (o : Option Nat) : Bool :=
  match o with
  | some n => n ≠ 0
  | none => false

/-- `GemGrid.loadFromJSON` (`src/js/gemGrid.js` lines 550-574): abort if
`data.gemColors` is absent; update `cols`/`rows` only when both are
truthy; replace the colors with a deep copy; clear the selection; then
`saveState()` on the loaded colors. -/
def loadFromJSON (st : GemGrid) (data : GridData) : GemGrid :=
  match data.dgemColors with
  | none => st
  | some m =>
    let st :=
      if truthyNum data.dcols ∧ truthyNum data.drows then
        { st with cols := data.dcols.getD 0, rows := data.drows.getD 0 }
      else st
    let st := { st with gemColors := m, selectedCells := [] }
    gemSaveState st

/-! ## History state machine over a `GemGrid` session -/

/-- The operations that touch the history stack: a raw bulk overwrite of
the cell colors (as the image sampler performs), `saveState`, `undo` and
`redo`. -/
inductive GOp where
  | mutate (m : List (String × String))
  | snapshot
  | undo
  | redo
deriving Repr, DecidableEq

/-- Apply one operation to a grid state. -/
def applyGOp (st : GemGrid) : GOp → GemGrid
  | GOp.mutate m => { st with gemColors := m }
  | GOp.snapshot => gemSaveState st
  | GOp.undo => gemUndo st
  | GOp.redo => gemRedo st

/-- Run a sequence of operations from a freshly constructed grid (empty
history, `historyIndex = -1`). -/
def runGOps (cols rows : Nat) (ops : List GOp) : GemGrid :=
  ops.foldl applyGOp (mkGemGrid cols rows)

/-- History invariant claimed by the spec: `-1 ≤ index < length` and at
most 50 snapshots. -/
def histInv (st : GemGrid) : Prop :=
  -1 ≤ st.historyIndex ∧ st.historyIndex < (st.history.length : Int) ∧
    st.history.length ≤ 50

instance (st : GemGrid) : Decidable (histInv st) := by
  unfold histInv; infer_instance

/-! ## HexGrid (`src/js/hexGrid.js`) with untyped JavaScript values

`HexGrid.saveState` pushes the wrapper object
`{ hexColors: <copy>, timestamp: Date.now() }`, but `HexGrid.undo`/`redo`
assign `this.hexColors = JSON.parse(JSON.stringify(this.history[i]))` —
the whole wrapper, not its `hexColors` field.  To express this type
confusion faithfully the `hexColors` slot is modelled as an untyped
JavaScript (JSON) value. -/

/-- JSON-like JavaScript values. -/
inductive JVal where
  | str (s : String)
  | num (n : Int)
  | obj (fields : List (String × JVal))

/-- Property read `v[k]` on a JavaScript value: `none` is `undefined`. -/
def getField (v : JVal) (k : String) : Option JVal :=
  match v with
  | JVal.obj fields => alookup fields k
  | _ => none

/-- Property write `v[k] = x` on an object value (the engine only ever
writes properties of objects; on primitives the write is lost). -/
def setField (v : JVal) (k : String) (x : JVal) : JVal :=
  match v with
  | JVal.obj fields => JVal.obj (aset fields k x)
  | _ => v

/-- `HexGrid` state (logic-relevant fields). -/
structure HexGridJS where
  hexColors : JVal
  selectedCells : List String
  history : List JVal
  historyIndex : Int

/-- `HexGrid.saveState` (`src/js/hexGrid.js` lines 363-384): truncation,
push of the `{hexColors, timestamp}` wrapper, cursor update, eviction
past 50 entries.  `now` stands for `Date.now()`. -/
def hexSaveState (st : HexGridJS) (now : Int) : HexGridJS :=
  let hist :=
    if st.historyIndex < (st.history.length : Int) - 1 then
      st.history.take (st.historyIndex + 1).toNat
    else st.history
  let hist := hist ++ [JVal.obj [("hexColors", st.hexColors), ("timestamp", JVal.num now)]]
  let idx : Int := (hist.length : Int) - 1
  if hist.length > 50 then
    { st with history := hist.tail, historyIndex := idx - 1 }
  else
    { st with history := hist, historyIndex := idx }

/-- `HexGrid.applyColorToSelection` (`src/js/hexGrid.js` lines 346-358). -/
def hexApplyColorToSelection (st : HexGridJS) (color : String) (now : Int) : HexGridJS :=
  if st.selectedCells.length = 0 then st
  else
    let st := hexSaveState st now
    { st with hexColors :=
        st.selectedCells.foldl (fun m key => setField m key (JVal.str color)) st.hexColors }

/-- `HexGrid.undo` (`src/js/hexGrid.js` lines 389-395): restores
`this.history[this.historyIndex]` — the whole snapshot wrapper — into
`this.hexColors`. -/
def hexUndo (st : HexGridJS) : HexGridJS :=
  if st.historyIndex > 0 then
    { st with historyIndex := st.historyIndex - 1
              hexColors := st.history.getD (st.historyIndex - 1).toNat (JVal.obj []) }
  else st

/-! ## ColorPalette.extractTopColors (`src/js/colorPalette.js` lines 355-396) -/

/-- Color intensity `rgb.r + rgb.g + rgb.b` as computed in
`extractTopColors`. -/
def intensity (color : String) : Nat :=
  let rgb := hexToRgb color
  rgb.r + rgb.g + rgb.b

/-- First sort pass of `extractTopColors`: comparator `(a, b) => b[1] - a[1]`
(count descending); `le a b` is `cmp(a,b) ≤ 0`. -/
def leCount (a b : String × Nat) : Bool :=
  b.2 ≤ a.2

/-- Second sort pass of `extractTopColors` on `{color, count, intensity}`
records: count descending, ties by intensity descending. -/
def leCI (a b : String × Nat × Nat) : Bool :=
  if b.2.1 ≠ a.2.1 then b.2.1 ≤ a.2.1 else b.2.2 ≤ a.2.2

/-- `ColorPalette.extractTopColors`: sort the histogram entries by count,
decorate with intensities, re-sort by (count, intensity), take the first
`min(10, length)` colors, pad with `'#FFFFFF'` to 10, and `slice(0, 10)`. -/
def extractTopColors (colorCounts : List (String × Nat)) : List String :=
  let colorPairs := isort leCount colorCounts
  let colorIntensities := colorPairs.map fun p => (p.1, p.2, intensity p.1)
  let sorted := isort leCI colorIntensities
  let topColors := (sorted.take (min 10 sorted.length)).map fun t => t.1
  let topColors := topColors ++ List.replicate (10 - topColors.length) "#FFFFFF"
  topColors.take 10

/-- Specification-side description of palette extraction (spec §4.4):
entries sorted by (count descending, intensity descending) in one stable
pass, truncated to the first 10 colors, padded with the default color to
length exactly 10.  Stated separately from `extractTopColors` so that the
refinement between the two can be proved. -/
def extractTopSpec (colorCounts : List (String × Nat)) : List String :=
  let sorted := isort leCI (colorCounts.map fun p => (p.1, p.2, intensity p.1))
  let top := (sorted.map fun t => t.1).take 10
  top ++ List.replicate (10 - top.length) "#FFFFFF"

/-! ## ColorUtils.reduceColors (`src/js/colorUtils2.js` lines 185-263)

The active variant: "pick least color and round to nearest".  No
clustering: the `k` lowest-value colors become the base palette and every
input color is nearest-mapped onto it in one pass. -/

/-- The records `{hex, rgb, value}` built at the top of `reduceColors`. -/
structure CVal where
  hex : String
  rgb : Rgb
  value : Nat
deriving Repr, DecidableEq

/-- Sort comparator `(a, b) => a.value - b.value` (value ascending). -/
def leVal (a b : CVal) : Bool :=
  a.value ≤ b.value

/-- Inner nearest-base-color loop of `reduceColors`: starts from
`closestColor = basePalette[0].hex` and `minDistance = Infinity`, updates
on strictly smaller Euclidean distance. -/
def closestBaseLoop (target : Rgb) :
    List CVal → Option String → Option Int → Option String
  | [], best, _ => best
  | p :: rest, best, bestD =>
    let d := colorDistSq target p.rgb
    match bestD with
    | none => closestBaseLoop target rest (some p.hex) (some d)
    | some bd =>
      if d < bd then closestBaseLoop target rest (some p.hex) (some d)
      else closestBaseLoop target rest best (some bd)

/-- Nearest color of the base palette (`none` only on an empty base, where
the source's `basePalette[0].hex` would throw — unreachable for `k ≥ 1`). -/
def closestBase (target : Rgb) (base : List CVal) : Option String :=
  closestBaseLoop target base (base.head?.map fun p => p.hex) none

/-- The `uniqueColors` accumulation loop of `reduceColors`: map each input
color to its nearest base color, add it to the set (insertion order), and
break as soon as the set reaches size `k`. -/
def uniqLoop (base : List CVal) (k : Nat) : List String → List String → List String
  | [], u => u
  | c :: t, u =>
    match closestBase (hexToRgb c) base with
    | none => u
    | some cc =>
      let u' := if cc ∈ u then u else u ++ [cc]
      if k ≤ u'.length then u' else uniqLoop base k t u'

/-- The final backfill loop of `reduceColors`: push base-palette colors
not yet in the result until it has `k` entries. -/
def backfillLoop (k : Nat) : List CVal → List String → List String
  | [], res => res
  | b :: t, res =>
    if b.hex ∈ res then backfillLoop k t res
    else
      let res' := res ++ [b.hex]
      if k ≤ res'.length then res' else backfillLoop k t res'

/-- `ColorUtils.reduceColors` (`src/js/colorUtils2.js`). -/
def reduceColors (colors : List String) (k : Nat) : List String :=
  if colors.length ≤ k then colors
  else
    let rgbColors := colors.map fun hex =>
      let rgb := hexToRgb hex
      CVal.mk hex rgb (rgb.r + rgb.g + rgb.b)
    let sorted := isort leVal rgbColors
    let basePalette := sorted.take k
    let uniqueColors := uniqLoop basePalette k colors []
    let resultColors := uniqueColors.take k
    if resultColors.length < k then backfillLoop k basePalette resultColors
    else resultColors

/-! ## The k-means fallback of `ColorUtils.reduceColors` in
`src/unnamed/part_002` (second variant, lines 563-740)

Both unnamed variants contain the same bounded k-means refinement loop,
reached only when no session reference palette is installed in the
`window` globals.  This embeds that no-session-palette path: frequency
seeding followed by at most 50 assign/update rounds. -/

/-- `colorFrequency`: occurrence counts in first-occurrence key order. -/
def colorFrequency (colors : List String) : List (String × Nat) :=
  colors.foldl (fun freq color => aset freq color ((alookup freq color).getD 0 + 1)) []

/-- Sort comparator `(a, b) => freq[b] - freq[a]` over color keys
(frequency descending). -/
def leFreq (freq : List (String × Nat)) (a b : String) : Bool :=
  (alookup freq b).getD 0 ≤ (alookup freq a).getD 0

/-- Per-point nearest-centroid search: `minDist = Infinity`,
`newCluster = 0`, update on strictly smaller distance (ties therefore go
to the lowest centroid index). -/
def nciLoop (point : Rgb) : List Rgb → Nat → Nat → Option Int → Nat
  | [], best, _, _ => best
  | c :: rest, best, j, bestD =>
    let d := colorDistSq point c
    match bestD with
    | none => nciLoop point rest j (j + 1) (some d)
    | some bd =>
      if d < bd then nciLoop point rest j (j + 1) (some d)
      else nciLoop point rest best (j + 1) (some bd)

/-- Index of the nearest centroid to `point`. -/
def nearestCentroidIdx (point : Rgb) (centroids : List Rgb) : Nat :=
  nciLoop point centroids 0 0 none

/-- Assignment step of one k-means round. -/
def assignAll (points : List Rgb) (centroids : List Rgb) : List Nat :=
  points.map fun p => nearestCentroidIdx p centroids

/-- Number of points assigned to cluster `i`. -/
def clusterCount (clusters : List Nat) (i : Nat) : Nat :=
  (clusters.filter fun c => c = i).length

/-- Componentwise sum of the points assigned to cluster `i`. -/
def clusterSum (points : List Rgb) (clusters : List Nat) (i : Nat) : Rgb :=
  (points.zip clusters).foldl
    (fun s pc => if pc.2 = i then ⟨s.r + pc.1.r, s.g + pc.1.g, s.b + pc.1.b⟩ else s)
    ⟨0, 0, 0⟩

/-- `Math.round(sum / count)` for naturals: round half up.  The source's
double division is exact enough that its rounding agrees with this
integer formula (numerator below 2^28, denominators below 2^20, and
half-integer quotients are exactly representable). -/
def jsRoundDiv (sum count : Nat) : Nat :=
  (2 * sum + count) / (2 * count)

/-- Update step of one k-means round: each centroid with a non-empty
cluster becomes the componentwise rounded mean of its points; empty
clusters keep their centroid. -/
def updateCentroids (points : List Rgb) (clusters : List Nat) (centroids : List Rgb) :
    List Rgb :=
  centroids.mapIdx fun i c =>
    let cnt := clusterCount clusters i
    if 0 < cnt then
      let s := clusterSum points clusters i
      ⟨jsRoundDiv s.r cnt, jsRoundDiv s.g cnt, jsRoundDiv s.b cnt⟩
    else c

/-- The bounded refinement loop
`while (changed && iterations < MAX_ITERATIONS)`: returns the final
centroids and the number of executed rounds.  The round that observes an
unchanged assignment still recomputes the centroids, exactly as in the
source, and is counted. -/
def kmeansLoop (points : List Rgb) : Nat → List Nat → List Rgb → List Rgb × Nat
  | 0, _, centroids => (centroids, 0)
  | fuel + 1, clusters, centroids =>
    let newClusters := assignAll points centroids
    let centroids' := updateCentroids points newClusters centroids
    if newClusters = clusters then (centroids', 1)
    else
      let r := kmeansLoop points fuel newClusters centroids'
      (r.1, r.2 + 1)

/-- `MAX_ITERATIONS`. -/
def MAX_ITERATIONS : Nat := 50

/-- Seeding and refinement of the part_002 `reduceColors` fallback
(assumes `colors.length > k`): seed from the most frequent colors, top up
from the current image's colors in order ("no random"), then iterate. -/
def kmeansCore (colors : List String) (k : Nat) : List Rgb × Nat :=
  let rgbColors := colors.map hexToRgb
  let freq := colorFrequency colors
  let sortedColors := isort (leFreq freq) (freq.map fun p => p.1)
  let centroids := (sortedColors.take (min k sortedColors.length)).map hexToRgb
  let centroids :=
    if centroids.length < k then centroids ++ rgbColors.take (k - centroids.length)
    else centroids
  let clusters := List.replicate rgbColors.length 0
  kmeansLoop rgbColors MAX_ITERATIONS clusters centroids

/-- The part_002 `reduceColors` fallback: unchanged input below the
threshold, otherwise the refined centroids converted back to hex. -/
def kmeansReduce (colors : List String) (k : Nat) : List String :=
  if colors.length ≤ k then colors
  else (kmeansCore colors k).1.map fun c => rgbToHex c.r c.g c.b

/-- Number of refinement rounds executed by the part_002 fallback. -/
def kmeansIterations (colors : List String) (k : Nat) : Nat :=
  (kmeansCore colors k).2

/-! # Theorems -/

/-! ## Stable-sort infrastructure -/

theorem oins_perm (le : α → α → Bool) (x : α) (l : List α) :
    List.Perm (oins le x l) (x :: l) := by
  induction l with
  | nil => simp [oins]
  | cons y t ih =>
    simp only [oins]
    split
    · exact List.Perm.refl _
    · exact (ih.cons y).trans (List.Perm.swap x y t)

theorem isort_perm (le : α → α → Bool) (l : List α) :
    List.Perm (isort le l) l := by
  induction l with
  | nil => simp [isort]
  | cons x t ih => exact (oins_perm le x (isort le t)).trans (ih.cons x)

theorem isort_length (le : α → α → Bool) (l : List α) :
    (isort le l).length = l.length :=
  (isort_perm le l).length_eq

/-- Two stable insertions of elements in strict order commute. -/
theorem oins_oins (le : α → α → Bool)
    (htrans : ∀ a b c, le a b = true → le b c = true → le a c = true)
    (x y : α) (hyx : le y x = true) (hxy : le x y = false) (M : List α) :
    oins le y (oins le x M) = oins le x (oins le y M) := by
  induction M with
  | nil => simp [oins, hyx, hxy]
  | cons z s ih =>
    by_cases hxz : le x z = true
    · have hyz : le y z = true := htrans y x z hyx hxz
      simp [oins, hxz, hyz, hyx, hxy]
    · have hxz' : le x z = false := by
        cases h : le x z
        · rfl
        · exact absurd h (by simp [hxz])
      by_cases hyz : le y z = true
      · simp [oins, hxz', hyz, hxy, hxz]
      · have hyz' : le y z = false := by
          cases h : le y z
          · rfl
          · exact absurd h (by simp [hyz])
        simp [oins, hxz', hyz', ih]

/-- Inserting with a coarse order `le1` before a stable sort by a refining
order `le2` is absorbed by that sort, provided `le1`-unrelated elements
are strictly `le2`-ordered. -/
theorem isort_oins (le1 le2 : α → α → Bool)
    (htrans : ∀ a b c, le2 a b = true → le2 b c = true → le2 a c = true)
    (href : ∀ a b, le1 a b = false → le2 b a = true ∧ le2 a b = false)
    (x : α) (L : List α) :
    isort le2 (oins le1 x L) = oins le2 x (isort le2 L) := by
  induction L with
  | nil => simp [oins, isort]
  | cons y t ih =>
    by_cases h : le1 x y = true
    · simp [oins, h, isort]
    · have h' : le1 x y = false := by
        cases hc : le1 x y
        · rfl
        · exact absurd hc (by simp [h])
      obtain ⟨hyx, hxy⟩ := href x y h'
      calc isort le2 (oins le1 x (y :: t))
          = oins le2 y (isort le2 (oins le1 x t)) := by simp [oins, h', isort]
        _ = oins le2 y (oins le2 x (isort le2 t)) := by rw [ih]
        _ = oins le2 x (oins le2 y (isort le2 t)) := oins_oins le2 htrans x y hyx hxy _
        _ = oins le2 x (isort le2 (y :: t)) := by simp [isort]

/-- Stability: pre-sorting by a coarse order is invisible to a stable
sort by a refining order. -/
theorem isort_isort (le1 le2 : α → α → Bool)
    (htrans : ∀ a b c, le2 a b = true → le2 b c = true → le2 a c = true)
    (href : ∀ a b, le1 a b = false → le2 b a = true ∧ le2 a b = false)
    (l : List α) :
    isort le2 (isort le1 l) = isort le2 l := by
  induction l with
  | nil => rfl
  | cons x t ih =>
    calc isort le2 (isort le1 (x :: t))
        = isort le2 (oins le1 x (isort le1 t)) := rfl
      _ = oins le2 x (isort le2 (isort le1 t)) := isort_oins le1 le2 htrans href x _
      _ = oins le2 x (isort le2 t) := by rw [ih]
      _ = isort le2 (x :: t) := rfl

/-- Mapping commutes with a stable sort whose order only looks at the
image under the map. -/
theorem map_isort (le : α → α → Bool) (le' : β → β → Bool) (f : α → β)
    (hc : ∀ a b, le a b = le' (f a) (f b)) (l : List α) :
    (isort le l).map f = isort le' (l.map f) := by
  have hoins : ∀ (x : α) (M : List α),
      (oins le x M).map f = oins le' (f x) (M.map f) := by
    intro x M
    induction M with
    | nil => simp [oins]
    | cons y s ih =>
      by_cases h : le x y = true
      · simp [oins, h, ← hc]
      · have h' : le x y = false := by
          cases hb : le x y
          · rfl
          · exact absurd hb (by simp [h])
        simp [oins, h', ← hc, ih]
  induction l with
  | nil => rfl
  | cons x t ih =>
    calc (isort le (x :: t)).map f
        = (oins le x (isort le t)).map f := rfl
      _ = oins le' (f x) ((isort le t).map f) := hoins x _
      _ = oins le' (f x) (isort le' (t.map f)) := by rw [ih]
      _ = isort le' ((x :: t).map f) := rfl

/-! ## Claim C10 -/

/-- C10: `findClosestColor` called with an empty candidate list raises no
error and returns `palette[0]`, the undefined value (`none`): the
non-empty-candidates precondition is never checked at the interface. -/
theorem claim_C10 (color : String) : findClosestColor color [] = none := rfl

/-! ## Claim C3 -/

/-- C3: evaluation of the code at the spec's scenario.  On a fresh 2×2
grid with selection `{(0,0),(1,1)}`, `applyColorToSelection('#FF0000')`
does produce the histogram `{#FFFFFF: 2, #FF0000: 2}`, but the single
subsequent `undo()` is a no-op (the only snapshot sits at
`historyIndex = 0` and `undo` requires `historyIndex > 0`), so the
all-white state is *not* restored, and `redo()` is likewise a no-op. -/
theorem claim_C3 :
    getColorCounts (applyColorToSelection
        { mkGemGrid 2 2 with selectedCells := ["0,0", "1,1"] } "#FF0000") "#FF0000" = 2 ∧
    getColorCounts (applyColorToSelection
        { mkGemGrid 2 2 with selectedCells := ["0,0", "1,1"] } "#FF0000") "#FFFFFF" = 2 ∧
    gemUndo (applyColorToSelection
        { mkGemGrid 2 2 with selectedCells := ["0,0", "1,1"] } "#FF0000") =
      applyColorToSelection
        { mkGemGrid 2 2 with selectedCells := ["0,0", "1,1"] } "#FF0000" ∧
    gemRedo (applyColorToSelection
        { mkGemGrid 2 2 with selectedCells := ["0,0", "1,1"] } "#FF0000") =
      applyColorToSelection
        { mkGemGrid 2 2 with selectedCells := ["0,0", "1,1"] } "#FF0000" := by
  decide

/-! ## Claim C2 -/

/-- C2: evaluation of `src/js/hexGrid.js` `undo` at a failing input.
After two `applyColorToSelection` edits on a 1×1 `HexGrid`, `undo()`
decrements the cursor but assigns the whole snapshot wrapper
`{hexColors: …, timestamp: …}` to the live `hexColors` — not the
coordinate-to-color map inside it: afterwards the cell lookup
`hexColors["0,0"]` is undefined while `hexColors["hexColors"]` holds the
map that the claim says should have been restored. -/
theorem claim_C2 :
    (hexUndo (hexApplyColorToSelection (hexApplyColorToSelection
        { hexColors := JVal.obj [("0,0", JVal.str "#FFFFFF")],
          selectedCells := ["0,0"], history := [], historyIndex := -1 }
        "#FF0000" 1) "#00FF00" 2)).historyIndex = 0 ∧
    getField (hexUndo (hexApplyColorToSelection (hexApplyColorToSelection
        { hexColors := JVal.obj [("0,0", JVal.str "#FFFFFF")],
          selectedCells := ["0,0"], history := [], historyIndex := -1 }
        "#FF0000" 1) "#00FF00" 2)).hexColors "0,0" = none ∧
    getField (hexUndo (hexApplyColorToSelection (hexApplyColorToSelection
        { hexColors := JVal.obj [("0,0", JVal.str "#FFFFFF")],
          selectedCells := ["0,0"], history := [], historyIndex := -1 }
        "#FF0000" 1) "#00FF00" 2)).hexColors "hexColors" =
      some (JVal.obj [("0,0", JVal.str "#FFFFFF")]) := by
  exact ⟨rfl, rfl, rfl⟩

/-! ## Claim C9: hex codec -/

theorem hexDigitsFixed_length (k n : Nat) : (hexDigitsFixed k n).length = k := by
  induction k generalizing n with
  | zero => rfl
  | succ k ih => simp [hexDigitsFixed, ih]

theorem hexDigitsFixed_lt (k n : Nat) : ∀ d ∈ hexDigitsFixed k n, d < 16 := by
  induction k generalizing n with
  | zero => intro d hd; simp [hexDigitsFixed] at hd
  | succ k ih =>
    intro d hd
    simp only [hexDigitsFixed, List.mem_append, List.mem_singleton] at hd
    rcases hd with hd | hd
    · exact ih (n / 16) d hd
    · subst hd; exact Nat.mod_lt _ (by norm_num)

theorem hexDigitsFixed_split (k a b : Nat) (hb : b < 16 ^ k) (ha : a < 16) :
    hexDigitsFixed (k + 1) (16 ^ k * a + b) = a :: hexDigitsFixed k b := by
  induction k generalizing b with
  | zero =>
    interval_cases b
    simp [hexDigitsFixed, Nat.mod_eq_of_lt ha, Nat.div_eq_of_lt ha]
  | succ k ih =>
    have hdiv : (16 ^ (k + 1) * a + b) / 16 = 16 ^ k * a + b / 16 := by
      rw [pow_succ]
      rw [show 16 ^ k * 16 * a + b = b + 16 * (16 ^ k * a) by ring]
      rw [Nat.add_mul_div_left _ _ (by norm_num : 0 < 16)]
      omega
    have hmod : (16 ^ (k + 1) * a + b) % 16 = b % 16 := by
      rw [pow_succ]
      rw [show 16 ^ k * 16 * a + b = b + (16 ^ k * a) * 16 by ring]
      simp [Nat.add_mul_mod_self_right]
    have hb16 : b / 16 < 16 ^ k := by
      rw [Nat.div_lt_iff_lt_mul (by norm_num : 0 < 16)]
      calc b < 16 ^ (k + 1) := hb
        _ = 16 ^ k * 16 := by rw [pow_succ]
    calc hexDigitsFixed (k + 2) (16 ^ (k + 1) * a + b)
        = hexDigitsFixed (k + 1) ((16 ^ (k + 1) * a + b) / 16)
            ++ [(16 ^ (k + 1) * a + b) % 16] := rfl
      _ = hexDigitsFixed (k + 1) (16 ^ k * a + b / 16) ++ [b % 16] := by
          rw [hdiv, hmod]
      _ = (a :: hexDigitsFixed k (b / 16)) ++ [b % 16] := by rw [ih _ hb16]
      _ = a :: hexDigitsFixed (k + 1) b := rfl

theorem hexDigitVal_roundtrip (d : Nat) (hd : d < 16) :
    hexDigitVal (hexDigitCharUpper d) = some d := by
  interval_cases d <;> rfl

theorem hexPrefixAux_digits (ds : List Nat) (acc : Nat) (h : ∀ d ∈ ds, d < 16) :
    hexPrefixAux acc (ds.map hexDigitCharUpper) =
      ds.foldl (fun a d => 16 * a + d) acc := by
  induction ds generalizing acc with
  | nil => rfl
  | cons d t ih =>
    have hd : d < 16 := h d (List.mem_cons_self d t)
    simp only [List.map_cons, hexPrefixAux, hexDigitVal_roundtrip d hd, List.foldl_cons]
    exact ih _ fun x hx => h x (List.mem_cons_of_mem d hx)

theorem hexDigitsFixed_foldl (k n acc : Nat) (h : n < 16 ^ k) :
    (hexDigitsFixed k n).foldl (fun a d => 16 * a + d) acc = acc * 16 ^ k + n := by
  induction k generalizing n acc with
  | zero => interval_cases n; simp [hexDigitsFixed]
  | succ k ih =>
    have hdiv : n / 16 < 16 ^ k := by
      rw [Nat.div_lt_iff_lt_mul (by norm_num : 0 < 16)]
      calc n < 16 ^ (k + 1) := h
        _ = 16 ^ k * 16 := by rw [pow_succ]
    calc (hexDigitsFixed (k + 1) n).foldl (fun a d => 16 * a + d) acc
        = (hexDigitsFixed k (n / 16) ++ [n % 16]).foldl (fun a d => 16 * a + d) acc := rfl
      _ = 16 * ((hexDigitsFixed k (n / 16)).foldl (fun a d => 16 * a + d) acc) + n % 16 := by
          rw [List.foldl_append]; rfl
      _ = 16 * (acc * 16 ^ k + n / 16) + n % 16 := by rw [ih _ _ hdiv]
      _ = acc * 16 ^ (k + 1) + n := by
          rw [pow_succ]
          have h3 : acc * (16 ^ k * 16) = 16 * (acc * 16 ^ k) := by ring
          omega

/-- C9 counterexample: `"GGGGGG"` is not a valid 3- or 6-digit hex code,
yet `hexToRgb` does not fail: it returns the triple `(0,0,0)` (the
`NaN`-masking result), contradicting "fails with a FormatError rather
than returning any (r,g,b) triple". -/
theorem claim_C9_counterexample :
    isValidHex "GGGGGG" = false ∧ hexToRgb "GGGGGG" = ⟨0, 0, 0⟩ := by
  decide

/-- C9 (amended): `hexToRgb` is total — on invalid input it silently
yields a numeric triple instead of failing — and on every canonical color
produced by `rgbToHex` from in-range channels it is the exact inverse;
such canonical strings also pass `isValidHex`. -/
theorem claim_C9 (r g b : Nat) (hr : r < 256) (hg : g < 256) (hb : b < 256) :
    hexToRgb (rgbToHex r g b) = ⟨r, g, b⟩ ∧ isValidHex (rgbToHex r g b) = true := by
  set v := r * 65536 + g * 256 + b with hv
  have hv24 : v < 16777216 := by omega
  have hsplit : hexDigitsFixed 7 (16777216 + v) = 1 :: hexDigitsFixed 6 v := by
    have := hexDigitsFixed_split 6 1 v (by norm_num [hv24]) (by norm_num)
    simpa using this
  have hdata : (rgbToHex r g b).data =
      '#' :: (hexDigitsFixed 6 v).map hexDigitCharUpper := by
    simp [rgbToHex, hsplit, ← hv]
  have hlen : (hexDigitsFixed 6 v).length = 6 := hexDigitsFixed_length 6 v
  have hstrip : (stripHash (rgbToHex r g b)).data =
      (hexDigitsFixed 6 v).map hexDigitCharUpper := by
    unfold stripHash
    rw [hdata]
    simp
  have hparse : jsParseInt16 (stripHash (rgbToHex r g b)) = some v := by
    unfold jsParseInt16
    rw [hstrip]
    obtain ⟨d0, rest, hds⟩ : ∃ d0 rest, hexDigitsFixed 6 v = d0 :: rest := by
      cases hc : hexDigitsFixed 6 v with
      | nil => exfalso; have := hexDigitsFixed_length 6 v; rw [hc] at this; simp at this
      | cons d0 rest => exact ⟨d0, rest, rfl⟩
    have hd16 : ∀ d ∈ hexDigitsFixed 6 v, d < 16 := hexDigitsFixed_lt 6 v
    have hd0 : d0 < 16 := hd16 d0 (by rw [hds]; exact List.mem_cons_self _ _)
    rw [hds]
    simp only [List.map_cons, hexDigitVal_roundtrip d0 hd0]
    have hrest : ∀ d ∈ rest, d < 16 := by
      intro d hd; exact hd16 d (by rw [hds]; exact List.mem_cons_of_mem _ hd)
    rw [hexPrefixAux_digits rest d0 hrest]
    have : (hexDigitsFixed 6 v).foldl (fun a d => 16 * a + d) 0 = v := by
      have := hexDigitsFixed_foldl 6 v 0 hv24
      simpa using this
    rw [hds] at this
    simp only [List.foldl_cons] at this
    rw [show 16 * 0 + d0 = d0 by omega] at this
    rw [this]
  constructor
  · unfold hexToRgb
    rw [hparse]
    show Rgb.mk (v % 4294967296 / 65536 % 256) (v % 4294967296 / 256 % 256)
      (v % 4294967296 % 256) = ⟨r, g, b⟩
    have hm : v % 4294967296 = v := Nat.mod_eq_of_lt (by omega)
    rw [hm, Rgb.mk.injEq]
    refine ⟨?_, ?_, ?_⟩ <;> omega
  · unfold isValidHex
    rw [hdata]
    simp only []
    have hall : ((hexDigitsFixed 6 v).map hexDigitCharUpper).all
        (fun c => (hexDigitVal c).isSome) = true := by
      rw [List.all_eq_true]
      intro c hc
      rw [List.mem_map] at hc
      obtain ⟨d, hd, rfl⟩ := hc
      rw [hexDigitVal_roundtrip d (hexDigitsFixed_lt 6 v d hd)]
      rfl
    simp [hall, hlen]

/-- C9 witness: the amended statement at the concrete channels
`(255, 85, 0)`. -/
theorem claim_C9_witness :
    hexToRgb (rgbToHex 255 85 0) = ⟨255, 85, 0⟩ ∧
      isValidHex (rgbToHex 255 85 0) = true :=
  claim_C9 255 85 0 (by decide) (by decide) (by decide)

/-! ## Claim C6: loadFromJSON -/

theorem gemSaveState_gemColors (st : GemGrid) :
    (gemSaveState st).gemColors = st.gemColors := by
  simp only [gemSaveState]
  split <;> split <;> rfl

theorem gemSaveState_selectedCells (st : GemGrid) :
    (gemSaveState st).selectedCells = st.selectedCells := by
  simp only [gemSaveState]
  split <;> split <;> rfl

theorem gemSaveState_cols (st : GemGrid) : (gemSaveState st).cols = st.cols := by
  simp only [gemSaveState]
  split <;> split <;> rfl

theorem gemSaveState_rows (st : GemGrid) : (gemSaveState st).rows = st.rows := by
  simp only [gemSaveState]
  split <;> split <;> rfl

theorem getLast_tail_append (X : List α) (x : α) (h : 0 < X.length) :
    ((X ++ [x]).tail).getLast? = some x := by
  cases X with
  | nil => simp at h
  | cons a t => simp

/-- The snapshot just taken is always the last history entry. -/
theorem gemSaveState_getLast (st : GemGrid) :
    (gemSaveState st).history.getLast? = some st.gemColors := by
  simp only [gemSaveState]
  split
  · split
    next h2 => exact getLast_tail_append _ _ (by simp at h2 ⊢; omega)
    next h2 => simp
  · split
    next h2 => exact getLast_tail_append _ _ (by simp at h2 ⊢; omega)
    next h2 => simp

/-- C6 counterexample: a grid file without `cols` and `rows` but with the
cell map loads successfully (the claim requires the load to fail), and
after the load the history holds two snapshots, with the pre-load state
still recoverable by `undo` (the claim requires exactly one snapshot and
no recoverable pre-load state). -/
theorem claim_C6_counterexample :
    (loadFromJSON
        { cols := 2, rows := 2, gemColors := [("0,0", "#111111")], selectedCells := [],
          history := [[("0,0", "#222222")]], historyIndex := 0 }
        { dcols := none, drows := none, dgemColors := some [("0,0", "#333333")] }).gemColors
      = [("0,0", "#333333")] ∧
    (loadFromJSON
        { cols := 2, rows := 2, gemColors := [("0,0", "#111111")], selectedCells := [],
          history := [[("0,0", "#222222")]], historyIndex := 0 }
        { dcols := none, drows := none, dgemColors := some [("0,0", "#333333")] }).history.length
      = 2 ∧
    (gemUndo (loadFromJSON
        { cols := 2, rows := 2, gemColors := [("0,0", "#111111")], selectedCells := [],
          history := [[("0,0", "#222222")]], historyIndex := 0 }
        { dcols := none, drows := none, dgemColors := some [("0,0", "#333333")] })).gemColors
      = [("0,0", "#222222")] := by
  decide

/-- C6 (amended): loading requires only the cell-map key; its absence
aborts the load leaving the grid unchanged; `cols`/`rows` are optional
and skipped when either is absent or zero; a successful load installs the
cell map, clears the selection, and appends one snapshot of the freshly
loaded state to the *surviving* history (prior snapshots are not
discarded). -/
theorem claim_C6 (st : GemGrid) (data : GridData) :
    (data.dgemColors = none → loadFromJSON st data = st) ∧
    (∀ m, data.dgemColors = some m →
      (loadFromJSON st data).gemColors = m ∧
      (loadFromJSON st data).selectedCells = [] ∧
      (loadFromJSON st data).history.getLast? = some m ∧
      (¬(truthyNum data.dcols = true ∧ truthyNum data.drows = true) →
        (loadFromJSON st data).cols = st.cols ∧ (loadFromJSON st data).rows = st.rows)) := by
  constructor
  · intro h
    simp [loadFromJSON, h]
  · intro m hm
    simp only [loadFromJSON, hm]
    split
    next hcr =>
      refine ⟨by rw [gemSaveState_gemColors], by rw [gemSaveState_selectedCells],
        gemSaveState_getLast _, ?_⟩
      intro hncr
      exact absurd hcr hncr
    next hcr =>
      exact ⟨by rw [gemSaveState_gemColors], by rw [gemSaveState_selectedCells],
        gemSaveState_getLast _,
        fun _ => ⟨by rw [gemSaveState_cols], by rw [gemSaveState_rows]⟩⟩

/-- C6 witness: the amended statement applied to a concrete 1×1 grid and
concrete load payloads with and without the cell map. -/
theorem claim_C6_witness :
    loadFromJSON (mkGemGrid 1 1) { dcols := none, drows := none, dgemColors := none }
      = mkGemGrid 1 1 ∧
    (loadFromJSON (mkGemGrid 1 1)
        { dcols := none, drows := none, dgemColors := some [("0,0", "#FF0000")] }).gemColors
      = [("0,0", "#FF0000")] ∧
    (loadFromJSON (mkGemGrid 1 1)
        { dcols := none, drows := none, dgemColors := some [("0,0", "#FF0000")] }).cols
      = (mkGemGrid 1 1).cols := by
  refine ⟨(claim_C6 (mkGemGrid 1 1) _).1 rfl, ?_, ?_⟩
  · exact ((claim_C6 (mkGemGrid 1 1) _).2 [("0,0", "#FF0000")] rfl).1
  · exact (((claim_C6 (mkGemGrid 1 1) _).2 [("0,0", "#FF0000")] rfl).2.2.2 (by decide)).1

/-! ## Claim C4: history invariant -/

theorem histInv_saveState (st : GemGrid) (h : histInv st) : histInv (gemSaveState st) := by
  obtain ⟨h1, h2, h3⟩ := h
  simp only [gemSaveState]
  split <;> split <;>
    simp_all only [histInv, List.length_tail, List.length_append, List.length_take,
      List.length_cons, List.length_nil, gt_iff_lt] <;>
    constructor <;> try constructor
  all_goals omega

theorem histInv_applyGOp (st : GemGrid) (op : GOp) (h : histInv st) :
    histInv (applyGOp st op) := by
  cases op with
  | mutate m => exact h
  | snapshot => exact histInv_saveState st h
  | undo =>
    obtain ⟨h1, h2, h3⟩ := h
    simp only [applyGOp, gemUndo]
    split
    next hgt =>
      refine ⟨?_, ?_, ?_⟩
      · show -1 ≤ st.historyIndex - 1
        omega
      · show st.historyIndex - 1 < (st.history.length : Int)
        omega
      · show st.history.length ≤ 50
        exact h3
    next hgt => exact ⟨h1, h2, h3⟩
  | redo =>
    obtain ⟨h1, h2, h3⟩ := h
    simp only [applyGOp, gemRedo]
    split
    next hlt =>
      refine ⟨?_, ?_, ?_⟩
      · show -1 ≤ st.historyIndex + 1
        omega
      · show st.historyIndex + 1 < (st.history.length : Int)
        omega
      · show st.history.length ≤ 50
        exact h3
    next hlt => exact ⟨h1, h2, h3⟩

theorem histInv_foldl (ops : List GOp) (st : GemGrid) (h : histInv st) :
    histInv (ops.foldl applyGOp st) := by
  induction ops generalizing st with
  | nil => exact h
  | cons op t ih => exact ih _ (histInv_applyGOp st op h)

/-- C4: after every sequence of mutate/snapshot/undo/redo operations from
a freshly constructed grid, `-1 ≤ historyIndex < history.length` and the
stack holds at most 50 snapshots; a snapshot taken while the cursor sits
below the top discards everything after the cursor before pushing; and
when capacity is exceeded the oldest snapshot is evicted while the
decremented cursor still addresses the just-pushed snapshot. -/
theorem claim_C4 :
    (∀ cols rows ops, histInv (runGOps cols rows ops)) ∧
    (∀ st, histInv st → st.historyIndex < (st.history.length : Int) - 1 →
      (gemSaveState st).history =
        st.history.take (st.historyIndex + 1).toNat ++ [st.gemColors]) ∧
    (∀ st, histInv st → st.history.length = 50 → st.historyIndex = (49 : Int) →
      (gemSaveState st).history = (st.history ++ [st.gemColors]).tail ∧
      (gemSaveState st).historyIndex = 49 ∧
      (gemSaveState st).history.getD (gemSaveState st).historyIndex.toNat []
        = st.gemColors) := by
  refine ⟨?_, ?_, ?_⟩
  · intro cols rows ops
    exact histInv_foldl ops _ (by simp [histInv, mkGemGrid])
  · intro st h hlt
    obtain ⟨h1, h2, h3⟩ := h
    have hnotfull :
        ¬(st.history.take (st.historyIndex + 1).toNat ++ [st.gemColors]).length > 50 := by
      simp only [List.length_append, List.length_take, List.length_cons, List.length_nil]
      omega
    simp only [gemSaveState, if_pos hlt, if_neg hnotfull]
  · intro st h h50 h49
    obtain ⟨h1, h2, h3⟩ := h
    have hnottrunc : ¬st.historyIndex < (st.history.length : Int) - 1 := by omega
    have hfull : (st.history ++ [st.gemColors]).length > 50 := by
      simp only [List.length_append, List.length_cons, List.length_nil]
      omega
    have e1 : (gemSaveState st).history = (st.history ++ [st.gemColors]).tail := by
      simp only [gemSaveState, if_neg hnottrunc, if_pos hfull]
    have e2 : (gemSaveState st).historyIndex = 49 := by
      simp only [gemSaveState, if_neg hnottrunc, if_pos hfull]
      show ((st.history ++ [st.gemColors]).length : Int) - 1 - 1 = 49
      simp only [List.length_append, List.length_cons, List.length_nil, h50]
      norm_num
    refine ⟨e1, e2, ?_⟩
    rw [e1, e2]
    cases hh : st.history with
    | nil => rw [hh] at h50; simp at h50
    | cons a t =>
      have ht : t.length = 49 := by
        rw [hh] at h50; simp at h50; omega
      show ((a :: t ++ [st.gemColors]).tail).getD (Int.toNat 49) [] = st.gemColors
      have htail : ((a :: t ++ [st.gemColors]).tail) = t ++ [st.gemColors] := rfl
      rw [htail]
      show (t ++ [st.gemColors]).getD 49 [] = st.gemColors
      rw [← ht]
      simp [List.getD_append_right, Nat.le_refl]

/-- C4 witness: the invariant after a concrete operation sequence, the
truncation behaviour at a concrete mid-history state, and the eviction
behaviour at a concrete full state. -/
theorem claim_C4_witness :
    histInv (runGOps 1 1 [GOp.snapshot, GOp.mutate [("0,0", "#FF0000")], GOp.snapshot,
      GOp.undo, GOp.redo]) ∧
    (gemSaveState
        { cols := 1, rows := 1, gemColors := [("0,0", "#FF0000")], selectedCells := [],
          history := [[("0,0", "#FFFFFF")], [("0,0", "#00FF00")]], historyIndex := 0 }).history
      = ({ cols := 1, rows := 1, gemColors := [("0,0", "#FF0000")], selectedCells := [],
           history := [[("0,0", "#FFFFFF")], [("0,0", "#00FF00")]],
           historyIndex := 0 } : GemGrid).history.take 1 ++ [[("0,0", "#FF0000")]] ∧
    (gemSaveState
        { cols := 1, rows := 1, gemColors := [("0,0", "#FF0000")], selectedCells := [],
          history := List.replicate 50 [], historyIndex := 49 }).historyIndex = 49 := by
  refine ⟨claim_C4.1 1 1 _, ?_, ?_⟩
  · exact claim_C4.2.1 _ (by decide) (by decide)
  · exact (claim_C4.2.2 _ (by constructor <;> simp) (by simp) rfl).2.1

/-! ## Claim C5: applyColorMapping -/

theorem alookup_cons (kv : String × β) (t : List (String × β)) (k : String) :
    alookup (kv :: t) k = if kv.1 = k then some kv.2 else alookup t k := by
  by_cases h : kv.1 = k <;> simp [alookup, List.find?_cons, h]

theorem alookup_map_fst (l : List (String × String)) (f : String × String → String)
    (k : String) :
    alookup (l.map fun kv => (kv.1, f kv)) k = (l.find? fun kv => kv.1 = k).map f := by
  induction l with
  | nil => rfl
  | cons kv t ih =>
    rw [List.map_cons, alookup_cons]
    by_cases h : kv.1 = k
    · simp [List.find?_cons, h]
    · simp only [h, if_false, ih, List.find?_cons]
      simp [h]

theorem alookup_as_find (l : List (String × String)) (k : String) :
    alookup l k = (l.find? fun kv => kv.1 = k).map fun kv => kv.2 := by
  unfold alookup
  cases l.find? fun kv => kv.1 = k <;> rfl

theorem alookup_pair_self (l : List String) (k : String) :
    alookup (l.map fun c => (c, c)) k = if k ∈ l then some k else none := by
  induction l with
  | nil => simp [alookup]
  | cons c t ih =>
    rw [List.map_cons, alookup_cons]
    by_cases h : c = k
    · subst h; simp
    · simp only [h, if_false, ih]
      by_cases hk : k ∈ t
      · simp [hk, List.mem_cons, h]
      · simp [hk, List.mem_cons, h, Ne.symm h]

theorem mem_firstDedupAux [DecidableEq α] (l seen : List α) (v : α) (hv : v ∈ l) :
    v ∈ seen ∨ v ∈ firstDedupAux seen l := by
  induction l generalizing seen with
  | nil => simp at hv
  | cons x t ih =>
    rw [List.mem_cons] at hv
    by_cases hx : x ∈ seen
    · simp only [firstDedupAux, if_pos hx]
      rcases hv with rfl | hv
      · exact Or.inl hx
      · exact ih seen hv
    · simp only [firstDedupAux, if_neg hx]
      rcases hv with rfl | hv
      · exact Or.inr (List.mem_cons_self _ _)
      · rcases ih (x :: seen) hv with hs | hs
        · rcases List.mem_cons.mp hs with rfl | hs
          · exact Or.inr (List.mem_cons_self _ _)
          · exact Or.inl hs
        · exact Or.inr (List.mem_cons_of_mem _ hs)

theorem mem_getAllColors (st : GemGrid) (kv : String × String) (h : kv ∈ st.gemColors) :
    kv.2 ∈ getAllColors st := by
  have hv : kv.2 ∈ st.gemColors.map fun kv => kv.2 := List.mem_map_of_mem _ h
  rcases mem_firstDedupAux _ [] kv.2 hv with hs | hs
  · simp at hs
  · exact hs

/-- C5: `applyColorMapping` rewrites exactly the cells whose current
color is a key of the map (to that key's image) and leaves every other
cell untouched; and with the identity mapping on the grid's present
colors the whole color histogram is unchanged.  The hypothesis `hm`
captures that the map's values are colors (non-empty strings), which is
what the source's truthiness test `if (colorMap[oldColor])` consumes. -/
theorem claim_C5 (st : GemGrid) (m : List (String × String))
    (hm : ∀ p ∈ m, p.2 ≠ "") :
    (∀ key, alookup (applyColorMapping st m).gemColors key =
      (alookup st.gemColors key).map fun old => (alookup m old).getD old) ∧
    (∀ c, getColorCounts
        (applyColorMapping st ((getAllColors st).map fun c0 => (c0, c0))) c
      = getColorCounts st c) := by
  constructor
  · intro key
    have hcolors : (applyColorMapping st m).gemColors =
        st.gemColors.map fun kv =>
          (kv.1, match alookup m kv.2 with
                 | some nv => if nv ≠ "" then nv else kv.2
                 | none => kv.2) := by
      simp only [applyColorMapping, gemSaveState_gemColors]
      apply List.map_congr_left
      intro kv _
      cases halk : alookup m kv.2 with
      | none => rfl
      | some nv =>
        by_cases hnv : nv ≠ ""
        · simp [hnv]
        · simp [hnv]
    rw [hcolors, alookup_map_fst, alookup_as_find]
    cases hf : st.gemColors.find? fun kv => kv.1 = key with
    | none => rfl
    | some kv =>
      cases halk : alookup m kv.2 with
      | none => simp [halk]
      | some nv =>
        have hnv : nv ≠ "" := by
          rw [alookup_as_find] at halk
          cases hf2 : m.find? fun p => p.1 = kv.2 with
          | none => rw [hf2] at halk; simp at halk
          | some p =>
            rw [hf2] at halk
            have hpv : p.2 = nv := by simpa using halk
            rw [← hpv]
            exact hm p (List.mem_of_find?_eq_some hf2)
        simp [halk, hnv]
  · intro c
    have hid : (applyColorMapping st ((getAllColors st).map fun c0 => (c0, c0))).gemColors
        = st.gemColors := by
      simp only [applyColorMapping, gemSaveState_gemColors]
      have : ∀ kv ∈ st.gemColors,
          (match alookup ((getAllColors st).map fun c0 => (c0, c0)) kv.2 with
           | some nv => if nv ≠ "" then (kv.1, nv) else kv
           | none => kv) = kv := by
        intro kv hkv
        rw [alookup_pair_self, if_pos (mem_getAllColors st kv hkv)]
        by_cases hnv : kv.2 ≠ ""
        · simp [hnv]
        · simp [hnv]
      calc st.gemColors.map _ = st.gemColors.map id := List.map_congr_left this
        _ = st.gemColors := List.map_id _
    unfold getColorCounts
    rw [hid]

/-- C5 witness: the statement at a concrete 1×1 grid and concrete map. -/
theorem claim_C5_witness :
    alookup (applyColorMapping (mkGemGrid 1 1) [("#FFFFFF", "#000000")]).gemColors "0,0"
      = (alookup (mkGemGrid 1 1).gemColors "0,0").map
          (fun old => (alookup [("#FFFFFF", "#000000")] old).getD old) ∧
    getColorCounts
        (applyColorMapping (mkGemGrid 1 1)
          ((getAllColors (mkGemGrid 1 1)).map fun c0 => (c0, c0))) "#FFFFFF"
      = getColorCounts (mkGemGrid 1 1) "#FFFFFF" :=
  ⟨(claim_C5 (mkGemGrid 1 1) [("#FFFFFF", "#000000")] (by decide)).1 "0,0",
   (claim_C5 (mkGemGrid 1 1) [("#FFFFFF", "#000000")] (by decide)).2 "#FFFFFF"⟩

/-! ## Claim C7: extractTopColors -/

theorem leCI_trans (a b c : String × Nat × Nat)
    (hab : leCI a b = true) (hbc : leCI b c = true) : leCI a c = true := by
  simp only [leCI] at *
  split_ifs at * <;> simp_all <;> omega

theorem leCnt_false_leCI (a b : String × Nat × Nat)
    (h : (decide (b.2.1 ≤ a.2.1) : Bool) = false) :
    leCI b a = true ∧ leCI a b = false := by
  simp only [decide_eq_false_iff_not, not_le] at h
  constructor
  · simp only [leCI]
    rw [if_pos (by omega : a.2.1 ≠ b.2.1)]
    simp
    omega
  · simp only [leCI]
    rw [if_pos (by omega : b.2.1 ≠ a.2.1)]
    simp
    omega

/-- C7: `extractTopColors` returns exactly 10 colors — the histogram
entries stably sorted by (count descending, intensity descending), the
first 10 of them, padded with the default color `#FFFFFF`; i.e. the
double sort in the source coincides with the single sort the spec
describes. -/
theorem claim_C7 (colorCounts : List (String × Nat)) :
    extractTopColors colorCounts = extractTopSpec colorCounts ∧
    (extractTopColors colorCounts).length = 10 := by
  have hsorted :
      isort leCI ((isort leCount colorCounts).map fun p => (p.1, p.2, intensity p.1)) =
      isort leCI (colorCounts.map fun p => (p.1, p.2, intensity p.1)) := by
    rw [map_isort leCount
      (fun (a b : String × Nat × Nat) => decide (b.2.1 ≤ a.2.1))
      (fun p => (p.1, p.2, intensity p.1)) (fun a b => rfl)]
    exact isort_isort _ leCI leCI_trans leCnt_false_leCI _
  have heq : extractTopColors colorCounts = extractTopSpec colorCounts := by
    simp only [extractTopColors, extractTopSpec]
    rw [hsorted]
    have htake : (isort leCI (colorCounts.map fun p => (p.1, p.2, intensity p.1))).take
        (min 10 (isort leCI (colorCounts.map fun p => (p.1, p.2, intensity p.1))).length) =
        (isort leCI (colorCounts.map fun p => (p.1, p.2, intensity p.1))).take 10 := by
      rw [List.take_eq_take]
      omega
    rw [htake, List.map_take]
    exact List.take_of_length_le
      (by simp [List.length_append, List.length_replicate, List.length_take])
  refine ⟨heq, ?_⟩
  rw [heq]
  unfold extractTopSpec
  simp only [List.length_append, List.length_replicate, List.length_take, List.length_map]
  omega

/-! ## Claim C8: bounded k-means refinement -/

theorem kmeansLoop_iter_le (points : List Rgb) (fuel : Nat) (clusters : List Nat)
    (centroids : List Rgb) :
    (kmeansLoop points fuel clusters centroids).2 ≤ fuel := by
  induction fuel generalizing clusters centroids with
  | zero => simp [kmeansLoop]
  | succ fuel ih =>
    simp only [kmeansLoop]
    split
    · simp
    · have := ih (assignAll points centroids)
        (updateCentroids points (assignAll points centroids) centroids)
      omega

theorem updateCentroids_length (points : List Rgb) (clusters : List Nat)
    (centroids : List Rgb) :
    (updateCentroids points clusters centroids).length = centroids.length := by
  simp [updateCentroids]

theorem kmeansLoop_centroids_length (points : List Rgb) (fuel : Nat) (clusters : List Nat)
    (centroids : List Rgb) :
    (kmeansLoop points fuel clusters centroids).1.length = centroids.length := by
  induction fuel generalizing clusters centroids with
  | zero => simp [kmeansLoop]
  | succ fuel ih =>
    simp only [kmeansLoop]
    split
    · exact updateCentroids_length ..
    · rw [ih]
      exact updateCentroids_length ..

/-- C8 counterexample: the active `reduceColors` (`src/js/colorUtils2.js`)
does not perform the claimed centroid refinement.  On
`{#000000, #FFFFFF, #FEFEFE}` with `k = 2` it keeps `#FEFEFE` (a lowest
intensity base color), while the centroid-refinement procedure (the
part_002 k-means fallback, which matches the claim's description) returns
the mean-refined `#FFFFFF`. -/
theorem claim_C8_counterexample :
    reduceColors ["#000000", "#FFFFFF", "#FEFEFE"] 2 = ["#000000", "#FEFEFE"] ∧
    kmeansReduce ["#000000", "#FFFFFF", "#FEFEFE"] 2 = ["#000000", "#FFFFFF"] ∧
    reduceColors ["#000000", "#FFFFFF", "#FEFEFE"] 2 ≠
      kmeansReduce ["#000000", "#FFFFFF", "#FEFEFE"] 2 := by
  refine ⟨by decide, by decide, by decide⟩

/-- C8 (amended): only the part_002 k-means fallback performs centroid
refinement; whenever the input exceeds `k` it executes at most 50
assign/update rounds (stopping at the first round whose assignment is
unchanged) and terminates with exactly `k` centroid colors.  The active
`reduceColors` in `colorUtils2.js` performs no refinement at all (see the
counterexample) and terminates by a single pass. -/
theorem claim_C8 (colors : List String) (k : Nat) (hk : k < colors.length) :
    kmeansIterations colors k ≤ 50 ∧ (kmeansReduce colors k).length = k := by
  have hcore : (kmeansCore colors k).1.length = k := by
    simp only [kmeansCore]
    rw [kmeansLoop_centroids_length]
    split
    next hlt =>
      simp only [List.length_append, List.length_map, List.length_take] at *
      omega
    next hge =>
      simp only [List.length_map, List.length_take] at *
      omega
  refine ⟨?_, ?_⟩
  · have := kmeansLoop_iter_le (colors.map hexToRgb) MAX_ITERATIONS
      (List.replicate (colors.map hexToRgb).length 0)
      (let freq := colorFrequency colors
       let sortedColors := isort (leFreq freq) (freq.map fun p => p.1)
       let centroids := (sortedColors.take (min k sortedColors.length)).map hexToRgb
       if centroids.length < k then centroids ++ (colors.map hexToRgb).take (k - centroids.length)
       else centroids)
    simpa [kmeansIterations, kmeansCore, MAX_ITERATIONS] using this
  · rw [kmeansReduce, if_neg (by omega)]
    simp [hcore]

/-- C8 witness: the amended statement at the counterexample input. -/
theorem claim_C8_witness :
    kmeansIterations ["#000000", "#FFFFFF", "#FEFEFE"] 2 ≤ 50 ∧
    (kmeansReduce ["#000000", "#FFFFFF", "#FEFEFE"] 2).length = 2 :=
  claim_C8 ["#000000", "#FFFFFF", "#FEFEFE"] 2 (by decide)

/-! ## Claim C1: reduceColors cardinality -/

theorem closestBaseLoop_mem (t : Rgb) (l : List CVal) (best : Option String)
    (bestD : Option Int) (S : List String)
    (hbest : ∀ s, best = some s → s ∈ S) (hl : ∀ p ∈ l, p.hex ∈ S) :
    ∀ s, closestBaseLoop t l best bestD = some s → s ∈ S := by
  induction l generalizing best bestD with
  | nil => exact fun s hs => hbest s hs
  | cons p rest ih =>
    intro s hs
    have hp : p.hex ∈ S := hl p (List.mem_cons_self _ _)
    have hrest : ∀ q ∈ rest, q.hex ∈ S := fun q hq => hl q (List.mem_cons_of_mem _ hq)
    cases bestD with
    | none =>
      simp only [closestBaseLoop] at hs
      exact ih (some p.hex) _ (fun s' hs' => by
        rw [Option.some_inj] at hs'; exact hs' ▸ hp) hrest s hs
    | some bd =>
      simp only [closestBaseLoop] at hs
      by_cases hd : colorDistSq t p.rgb < bd
      · rw [if_pos hd] at hs
        exact ih (some p.hex) _ (fun s' hs' => by
          rw [Option.some_inj] at hs'; exact hs' ▸ hp) hrest s hs
      · rw [if_neg hd] at hs
        exact ih best _ hbest hrest s hs

theorem closestBase_mem (t : Rgb) (base : List CVal) (s : String)
    (h : closestBase t base = some s) : s ∈ base.map fun p => p.hex := by
  cases base with
  | nil => simp [closestBase, closestBaseLoop] at h
  | cons b rest =>
    refine closestBaseLoop_mem t (b :: rest) ((b :: rest).head?.map fun p => p.hex) none
      ((b :: rest).map fun p => p.hex) ?_ (fun p hp => List.mem_map_of_mem _ hp) s h
    intro s' hs'
    simp only [List.head?_cons, Option.map_some'] at hs'
    rw [Option.some_inj] at hs'
    exact hs' ▸ List.mem_map_of_mem _ (List.mem_cons_self _ _)

theorem uniqLoop_props (base : List CVal) (k : Nat) (cs : List String) (u : List String)
    (hnd : u.Nodup) (hsub : ∀ x ∈ u, x ∈ base.map fun p => p.hex) (hlen : u.length < k) :
    (uniqLoop base k cs u).Nodup ∧
    (∀ x ∈ uniqLoop base k cs u, x ∈ base.map fun p => p.hex) ∧
    (uniqLoop base k cs u).length ≤ k := by
  induction cs generalizing u with
  | nil => exact ⟨hnd, hsub, Nat.le_of_lt hlen⟩
  | cons c t ih =>
    simp only [uniqLoop]
    cases hcb : closestBase (hexToRgb c) base with
    | none => exact ⟨hnd, hsub, Nat.le_of_lt hlen⟩
    | some cc =>
      have hccS : cc ∈ base.map fun p => p.hex := closestBase_mem _ _ _ hcb
      by_cases hmem : cc ∈ u
      · simp only [if_pos hmem]
        rw [if_neg (by omega)]
        exact ih u hnd hsub hlen
      · simp only [if_neg hmem]
        have hnd' : (u ++ [cc]).Nodup := by simp [List.nodup_append, hnd, hmem]
        have hsub' : ∀ x ∈ u ++ [cc], x ∈ base.map fun p => p.hex := by
          intro x hx
          rcases List.mem_append.mp hx with hx | hx
          · exact hsub x hx
          · rw [List.mem_singleton] at hx
            exact hx ▸ hccS
        by_cases hk : k ≤ (u ++ [cc]).length
        · rw [if_pos hk]
          refine ⟨hnd', hsub', ?_⟩
          simp only [List.length_append, List.length_cons, List.length_nil]
          omega
        · rw [if_neg hk]
          refine ih _ hnd' hsub' ?_
          simp only [List.length_append, List.length_cons, List.length_nil] at hk ⊢
          omega

theorem backfillLoop_length (k : Nat) (base : List CVal) (res : List String)
    (hndb : (base.map fun p => p.hex).Nodup) (hnd : res.Nodup) (hlt : res.length < k)
    (hcnt : k ≤ res.length + (base.filter fun b => decide (b.hex ∉ res)).length) :
    (backfillLoop k base res).length = k := by
  induction base generalizing res with
  | nil =>
    exfalso
    simp only [List.filter_nil, List.length_nil] at hcnt
    omega
  | cons b t ih =>
    have hndt : (t.map fun p => p.hex).Nodup := by
      rw [List.map_cons] at hndb
      exact hndb.of_cons
    have hbt : b.hex ∉ t.map fun p => p.hex := by
      rw [List.map_cons] at hndb
      exact (List.nodup_cons.mp hndb).1
    simp only [backfillLoop]
    by_cases hmem : b.hex ∈ res
    · rw [if_pos hmem]
      refine ih res hndt hnd hlt ?_
      have : (List.filter (fun b => decide (b.hex ∉ res)) (b :: t)) =
          List.filter (fun b => decide (b.hex ∉ res)) t := by
        rw [List.filter_cons]
        simp [hmem]
      rw [this] at hcnt
      exact hcnt
    · rw [if_neg hmem]
      have hfcons : (List.filter (fun b => decide (b.hex ∉ res)) (b :: t)) =
          b :: List.filter (fun b => decide (b.hex ∉ res)) t := by
        rw [List.filter_cons]
        simp [hmem]
      by_cases hk : k ≤ (res ++ [b.hex]).length
      · rw [if_pos hk]
        simp only [List.length_append, List.length_cons, List.length_nil] at hk ⊢
        omega
      · rw [if_neg hk]
        have hnd' : (res ++ [b.hex]).Nodup := by simp [List.nodup_append, hnd, hmem]
        have hlt' : (res ++ [b.hex]).length < k := by
          simp only [List.length_append, List.length_cons, List.length_nil] at hk ⊢
          omega
        refine ih _ hndt hnd' hlt' ?_
        have hfilt : List.filter (fun x => decide (x.hex ∉ res ++ [b.hex])) t =
            List.filter (fun x => decide (x.hex ∉ res)) t := by
          apply List.filter_congr
          intro x hx
          have hxb : x.hex ≠ b.hex := by
            intro hcontra
            exact hbt (hcontra ▸ List.mem_map_of_mem _ hx)
          simp [List.mem_append, hxb]
        rw [hfilt]
        rw [hfcons] at hcnt
        simp only [List.length_append, List.length_cons, List.length_nil] at hcnt ⊢
        omega

/-- Counting distinct elements: a duplicate-free list included in `S`
cannot be longer than `S`. -/
theorem nodup_subset_length_le [DecidableEq α] (l S : List α) (hnd : l.Nodup)
    (hsub : ∀ x ∈ l, x ∈ S) : l.length ≤ S.length := by
  calc l.length = l.toFinset.card := (List.toFinset_card_of_nodup hnd).symm
    _ ≤ S.toFinset.card := Finset.card_le_card (by
        intro x hx
        rw [List.mem_toFinset] at hx
        rw [List.mem_toFinset]
        exact hsub x hx)
    _ ≤ S.length := S.toFinset_card_le

/-- C1: for distinct input colors and `k ≥ 1`, `reduceColors` returns the
input unchanged when it has at most `k` colors, and otherwise returns a
list of exactly `k` colors (nearest-mapped survivors backfilled from the
`k`-element base palette). -/
theorem claim_C1 (colors : List String) (k : Nat) (hnd : colors.Nodup) (hk : 1 ≤ k) :
    (colors.length ≤ k → reduceColors colors k = colors) ∧
    (k < colors.length → (reduceColors colors k).length = k) := by
  constructor
  · intro h
    simp only [reduceColors, if_pos h]
  · intro h
    have hnle : ¬colors.length ≤ k := by omega
    simp only [reduceColors, if_neg hnle]
    set CV := colors.map (fun hex =>
      CVal.mk hex (hexToRgb hex) ((hexToRgb hex).r + (hexToRgb hex).g + (hexToRgb hex).b))
      with hCV
    set B := (isort leVal CV).take k with hB
    set U := uniqLoop B k colors [] with hU
    have hCVhex : CV.map (fun p => p.hex) = colors := by
      rw [hCV, List.map_map]
      calc colors.map ((fun p => p.hex) ∘ fun hex =>
              CVal.mk hex (hexToRgb hex)
                ((hexToRgb hex).r + (hexToRgb hex).g + (hexToRgb hex).b))
          = colors.map id := List.map_congr_left fun a _ => rfl
        _ = colors := List.map_id colors
    have hsortlen : (isort leVal CV).length = colors.length := by
      rw [isort_length, hCV, List.length_map]
    have hBlen : B.length = k := by
      rw [hB, List.length_take]
      omega
    have hsorthex_nodup : ((isort leVal CV).map fun p => p.hex).Nodup := by
      have hperm : List.Perm ((isort leVal CV).map fun p => p.hex)
          (CV.map fun p => p.hex) := (isort_perm leVal CV).map _
      rw [hCVhex] at hperm
      exact hperm.nodup_iff.mpr hnd
    have hBhex_nodup : (B.map fun p => p.hex).Nodup := by
      rw [hB, List.map_take]
      exact hsorthex_nodup.sublist (List.take_sublist _ _)
    have hBhexlen : (B.map fun p => p.hex).length = k := by
      rw [List.length_map, hBlen]
    obtain ⟨hUnd, hUsub, hUlen⟩ :=
      uniqLoop_props B k colors [] List.nodup_nil (by simp)
        (by simp only [List.length_nil]; omega)
    rw [← hU] at hUnd hUsub hUlen
    have hUtake : U.take k = U := List.take_of_length_le hUlen
    rw [hUtake]
    by_cases hUk : U.length < k
    · rw [if_pos hUk]
      apply backfillLoop_length k B U hBhex_nodup hUnd hUk
      have hfle : (B.filter fun b => decide (b.hex ∈ U)).length ≤ U.length := by
        have hmapped : ((B.filter fun b => decide (b.hex ∈ U)).map fun p => p.hex).Nodup :=
          hBhex_nodup.sublist ((List.filter_sublist _).map _)
        have hsub : ∀ x ∈ (B.filter fun b => decide (b.hex ∈ U)).map fun p => p.hex,
            x ∈ U := by
          intro x hx
          rw [List.mem_map] at hx
          obtain ⟨p, hp, rfl⟩ := hx
          have := List.of_mem_filter hp
          simpa using this
        have := nodup_subset_length_le _ U hmapped hsub
        rwa [List.length_map] at this
      have hsplit : (B.filter fun b => decide (b.hex ∈ U)).length +
          (B.filter fun b => decide (b.hex ∉ U)).length = k := by
        have hperm := List.filter_append_perm (fun b => decide (b.hex ∈ U)) B
        have hlen := hperm.length_eq
        rw [List.length_append] at hlen
        have hcongr : (B.filter fun x => !decide (x.hex ∈ U)) =
            B.filter fun b => decide (b.hex ∉ U) := by
          apply List.filter_congr
          intro x _
          rw [decide_not]
        rw [hcongr] at hlen
        omega
      omega
    · rw [if_neg hUk]
      omega

/-- C1 witness: both directions at concrete inputs — a two-color list
with `k = 3` is returned unchanged, and a three-color list with `k = 2`
is reduced to exactly two colors. -/
theorem claim_C1_witness :
    reduceColors ["#000000", "#FFFFFF"] 3 = ["#000000", "#FFFFFF"] ∧
    (reduceColors ["#000000", "#FFFFFF", "#FEFEFE"] 2).length = 2 :=
  ⟨(claim_C1 ["#000000", "#FFFFFF"] 3 (by decide) (by decide)).1 (by decide),
   (claim_C1 ["#000000", "#FFFFFF", "#FEFEFE"] 2 (by decide) (by decide)).2 (by decide)⟩
